import Mathlib

/-!
Shallow embedding of the spectral-sequence chart server:
the chart state engine (`src/server/spectralsequence_chart/chart.py`) and
the interaction mode machine
(`src/chart/server/spectralsequence_chart/interactive_chart.py`).

Python objects become Lean structures; the mutable chart becomes a
`ChartData` value threaded through the operations; each operation returns
the new state together with the list of outbound broadcast messages it
emitted (in emission order).  Class and edge objects are referenced by
their sequential ids, which the engine assigns as the list length at
append time; the engine's callers can only hand a mutator a class object
that it previously created, so a reference is always a valid index.
-/

namespace Sseq

/-- `INFINITY = 65535` from `chart.py`. -/
def INFINITY : Int := 65535

/-- A `ChartNode` rendering primitive: only the fields the server core
touches (`shape`, and the sequential `idx` assigned on registration). -/
structure ChartNode where
  shape : String
  idx : Nat
deriving DecidableEq, Repr

/-- A `ChartClass`: integer bidegree, sequential id, node list, the pages
it participates on, and the incident-edge back-reference list `_edges`
(stored as edge ids). -/
structure ChartClass where
  x : Int
  y : Int
  id : Nat
  node_list : List Nat
  pages : List Int
  edges_list : List Nat
deriving DecidableEq, Repr

/-- The three edge kinds of `chart_elements`. -/
inductive EdgeType where
  | structline
  | differential
  | extension
deriving DecidableEq, Repr

/-- A chart edge.  `page` is `some` exactly for differentials; `color`
and `bend` are the optional display fields the interactive modes set. -/
structure ChartEdge where
  type : EdgeType
  id : Nat
  source : Nat
  target : Nat
  page : Option Int
  color : Option String
  bend : Int
deriving DecidableEq, Repr

/-- Outbound broadcast messages, one constructor per command topic the
embedded operations emit. -/
inductive Broadcast where
  | nodeAdd (node : ChartNode)
  | insertPageRange (range : Int × Int) (idx : Nat)
  | classAdd (id : Nat)
  | classUpdate (to_update : List Nat)
  | edgeAdd (type : EdgeType) (id : Nat) (source : Nat) (target : Nat) (page : Option Int)
  | setModeInfo (info : String)
  | prompt (msg : String) (dflt : Option String)
  | adjustBend
deriving DecidableEq, Repr

/-- The mutable chart state of `ChartData.__init__`.  The dirty set
`_updated_elements` is a Python `set` of chart elements; we keep it as a
duplicate-free list of class ids (insertion order; Python's set is
unordered, and no claim depends on the batch order).  The node dedup
cache `_nodes_dict` keeps its values (its hash keys live in the missing
`chart_elements` module). -/
structure ChartData where
  name : String
  initial_x_range : Int × Int
  initial_y_range : Int × Int
  page_list : List (Int × Int)
  min_page_idx : Nat
  nodes : List ChartNode
  nodes_dict : List ChartNode
  classes : List ChartClass
  classes_by_bidegree : List ((Int × Int) × List Nat)
  updated_elements : List Nat
  edges : List ChartEdge
deriving DecidableEq, Repr

/-- The default node built in `ChartData.__init__`: a circle with
`idx = 0`. -/
def defaultNode : ChartNode := { shape := "circle", idx := 0 }

/-- `ChartData.__init__`: page list `[[2, INFINITY], [INFINITY, INFINITY]]`,
one default node already registered in the dedup cache, everything else
empty. -/
def initialChartData (name : String) : ChartData :=
  { name := name
    initial_x_range := (0, 10)
    initial_y_range := (0, 10)
    page_list := [(2, INFINITY), (INFINITY, INFINITY)]
    min_page_idx := 0
    nodes := [defaultNode]
    nodes_dict := [defaultNode]
    classes := []
    classes_by_bidegree := []
    updated_elements := []
    edges := [] }

/-- In-place update of the element at position `i` (Python mutates the
object that is stored in the list). -/
def updAt {α : Type} (l : List α) (i : Nat) (f : α → α) : List α :=
  match l, i with
  | [], _ => []
  | a :: as, 0 => f a :: as
  | a :: as, n + 1 => a :: updAt as n f

/-- Association-list view of the `_classes_by_bidegree` dict: lookup. -/
def bdLookup (m : List ((Int × Int) × List Nat)) (k : Int × Int) : List Nat :=
  match m with
  | [] => []
  | (k', v) :: rest => if k' = k then v else bdLookup rest k

/-- `_classes_by_bidegree` update of `add_class_a`: create the key with
`[]` when absent, then append the class. -/
def bdInsert (m : List ((Int × Int) × List Nat)) (k : Int × Int) (cid : Nat) :
    List ((Int × Int) × List Nat) :=
  match m with
  | [] => [(k, [cid])]
  | (k', v) :: rest =>
      if k' = k then (k', v ++ [cid]) :: rest else (k', v) :: bdInsert rest k cid

/-- The `for ... else` loop of `add_page_range_a`: index of the first
entry whose lower bound exceeds the new range's lower bound, else the
length of the list. -/
def insertPos (l : List (Int × Int)) (r : Int × Int) : Nat :=
  match l with
  | [] => 0
  | p :: rest => if p.1 > r.1 then 0 else insertPos rest r + 1

/-- `SpectralSequenceChart.add_page_range_a`.  The early return and the
re-check under `_page_list_lock` collapse to one membership test in the
sequential semantics. -/
def add_page_range_a (d : ChartData) (r : Int × Int) : ChartData × List Broadcast :=
  if r ∈ d.page_list then (d, [])
  else
    let idx := insertPos d.page_list r
    ({ d with page_list := d.page_list.take idx ++ r :: d.page_list.drop idx },
     [.insertPageRange r idx])

/-- `ChartData.add_element_to_update`: add to the dirty set (set
semantics: re-adding a present element is a no-op). -/
def add_element_to_update (d : ChartData) (e : Nat) : ChartData :=
  if e ∈ d.updated_elements then d
  else { d with updated_elements := d.updated_elements ++ [e] }

/-- `SpectralSequenceChart.update_a`: broadcast the full dirty set as one
`chart.class.update` batch, then clear it. -/
def update_a (d : ChartData) : ChartData × List Broadcast :=
  ({ d with updated_elements := [] }, [.classUpdate d.updated_elements])

/-- `SpectralSequenceChart.add_node_a`: assign `idx = len(nodes)`, append,
broadcast `chart.node.add`. -/
def add_node_a (d : ChartData) (node : ChartNode) : ChartData × List Broadcast :=
  let node' := { node with idx := d.nodes.length }
  ({ d with nodes := d.nodes ++ [node'] }, [.nodeAdd node'])

/-- `SpectralSequenceChart.add_class_a` with the keyword fields beyond
`x`, `y` left at their defaults: node list `[0]`, `id = len(classes)`,
append to the flat list and the bidegree map, broadcast
`chart.class.add`. -/
def add_class_a (d : ChartData) (x y : Int) : ChartData × ChartClass × List Broadcast :=
  let c : ChartClass :=
    { x := x, y := y, id := d.classes.length, node_list := [0], pages := [], edges_list := [] }
  ({ d with
      classes := d.classes ++ [c]
      classes_by_bidegree := bdInsert d.classes_by_bidegree (x, y) c.id },
   c, [.classAdd c.id])

/-- `SpectralSequenceChart.add_edge_a`: assign `id = len(edges)`, append
the edge, append it to both endpoints' `_edges` lists (source first),
broadcast `chart.edge.add` with the resolved endpoint ids (and the
`page` keyword for differentials). -/
def add_edge_a (d : ChartData) (t : EdgeType) (page : Option Int) (sid tid : Nat) :
    ChartData × Nat × List Broadcast :=
  let eid := d.edges.length
  let e : ChartEdge :=
    { type := t, id := eid, source := sid, target := tid, page := page, color := none, bend := 0 }
  ({ d with
      edges := d.edges ++ [e]
      classes := updAt (updAt d.classes sid
          (fun c => { c with edges_list := c.edges_list ++ [eid] })) tid
          (fun c => { c with edges_list := c.edges_list ++ [eid] }) },
   eid, [.edgeAdd t eid sid tid page])

/-- `SpectralSequenceChart.add_structline_a`. -/
def add_structline_a (d : ChartData) (sid tid : Nat) : ChartData × Nat × List Broadcast :=
  add_edge_a d .structline none sid tid

/-- Modelled from the spec: `add_extension` is not under `src/` (only its
caller `AddExtensionMode` is); per §4.2 it constructs the extension edge,
appends it with a fresh sequential id to the shared edge list and both
endpoints' incident-edge lists, and broadcasts `chart.edge.add`. -/
def add_extension_a (d : ChartData) (sid tid : Nat) : ChartData × Nat × List Broadcast :=
  add_edge_a d .extension none sid tid

/-- Modelled from the spec: `ChartClass.add_page` lives in the missing
`chart_elements` module; per §4.2 it records that the class participates
on `page`. -/
def class_add_page (c : ChartClass) (page : Int) : ChartClass :=
  { c with pages := c.pages ++ [page] }

/-- The `source.add_page(page); target.add_page(page)` prologue of
`add_differential_a` (source first, then target). -/
def recordPages (d : ChartData) (page : Int) (sid tid : Nat) : ChartData :=
  { d with
    classes := updAt (updAt d.classes sid (fun c => class_add_page c page)) tid
        (fun c => class_add_page c page) }

/-- `SpectralSequenceChart.add_differential_a`: when `auto`, record the
page on both endpoints, register `[page, page]` via `add_page_range_a`
and flush the dirty set, then construct the differential edge. -/
def add_differential_a (d : ChartData) (page : Int) (sid tid : Nat) (auto : Bool) :
    ChartData × Nat × List Broadcast :=
  if auto then
    let d1 := recordPages d page sid tid
    let pr := add_page_range_a d1 (page, page)
    let up := update_a pr.1
    let ed := add_edge_a up.1 .differential (some page) sid tid
    (ed.1, ed.2.1, pr.2 ++ up.2 ++ ed.2.2)
  else
    add_edge_a d .differential (some page) sid tid

/-! ### Interaction mode machine (`interactive_chart.py`) -/

/-- The mode classes registered via `@register_mode`, keyed by class name
in `InteractiveChartAgent.modes`. -/
inductive ModeName where
  | NoMode
  | AddClassMode
  | AddEdgeMode
  | NameClassMode
  | ColorMode
  | AddExtensionMode
  | AddDifferentialMode
  | NudgeClassMode
deriving DecidableEq, Repr

/-- The `InteractiveChartAgent.modes` registration table
(`cls.__name__ -> cls`), in registration order. -/
def modes : List (String × ModeName) :=
  [("NoMode", .NoMode),
   ("AddClassMode", .AddClassMode),
   ("AddEdgeMode", .AddEdgeMode),
   ("NameClassMode", .NameClassMode),
   ("ColorMode", .ColorMode),
   ("AddExtensionMode", .AddExtensionMode),
   ("AddDifferentialMode", .AddDifferentialMode),
   ("NudgeClassMode", .NudgeClassMode)]

/-- Dictionary lookup in the mode table. -/
def lookupMode (name : String) : Option ModeName :=
  match modes.find? (fun p => p.1 = name) with
  | some p => some p.2
  | none => none

/-- The `handle__<sub>__a` methods `getattr` can find on each mode class:
every mode inherits `handle__cancel__a` from `Mode`; `AddExtensionMode`
adds `handle__extension__adjust_bend__a` and `NudgeClassMode` adds
`handle__nudge_class__a`.  A subcommand path `p1.p2...` is keyed here as
`"p1__p2..."`, matching the `"__".join(cmd.part_list[2:])` construction. -/
def modeHandlerNames (m : ModeName) : List String :=
  match m with
  | .AddExtensionMode => ["cancel", "extension__adjust_bend"]
  | .NudgeClassMode => ["cancel", "nudge_class"]
  | _ => ["cancel"]

/-- The per-agent interaction session: the owned chart plus the mutable
scratch fields of `InteractiveChartAgent.__init__` that the claims
touch.  `_extension_prev_color_default` starts as `"black"` and takes
whatever `prompt_a` returned, including `None`. -/
structure InteractiveState where
  chart : ChartData
  mode : ModeName
  differential_source : Option Nat
  extension_source : Option Nat
  extension_prev_color_default : Option String
  extension : Option Nat
deriving DecidableEq, Repr

/-- `InteractiveChartAgent.__init__` (fields the claims touch). -/
def initialInteractiveState (name : String) : InteractiveState :=
  { chart := initialChartData name
    mode := .NoMode
    differential_source := none
    extension_source := none
    extension_prev_color_default := some "black"
    extension := none }

/-- `handle__interact__mode__set__a`: set the active mode when the name is
registered, otherwise raise `RuntimeError("Unknown mode ...")`. -/
def handle_interact_mode_set_a (st : InteractiveState) (mode : String) :
    Except String InteractiveState :=
  match lookupMode mode with
  | some m => .ok { st with mode := m }
  | none => .error ("Unknown mode " ++ mode)

/-- `handle__interact__mode__a`: look up `handle__<sub>__a` on the active
mode; raise `RuntimeError("Invalid mode command ...")` when `getattr`
finds nothing, otherwise schedule the handler (`.ok`). -/
def handle_interact_mode_a (st : InteractiveState) (sub : String) : Except String Unit :=
  if sub ∈ modeHandlerNames st.mode then .ok () else .error ("Invalid mode command " ++ sub)

/-- `AddDifferentialMode.handle_click_a`.  The clicked argument is the
resolved chart class (by id) or `none`; pending ids always reference
classes of the owned chart (the Python handler receives the objects
themselves), so a failed id lookup — unrepresentable at the source —
is mapped to a no-op. -/
def AddDifferentialMode_handle_click_a (st : InteractiveState) (c : Option Nat) :
    InteractiveState × List Broadcast :=
  match c with
  | none => (st, [])
  | some tid =>
    match st.differential_source with
    | none =>
        ({ st with differential_source := some tid },
         [.setModeInfo "Current source"])
    | some sid =>
      match st.chart.classes[sid]?, st.chart.classes[tid]? with
      | some s, some t =>
          if s.x ≠ t.x + 1 then (st, [])
          else
            let page := t.y - s.y
            let ad := add_differential_a st.chart page sid tid true
            let d' := { ad.1 with
              edges := updAt ad.1.edges ad.2.1 (fun e => { e with color := some "blue" }) }
            let up := update_a d'
            ({ st with chart := up.1, differential_source := none },
             ad.2.2 ++ [.setModeInfo ""] ++ up.2)
      | _, _ => (st, [])

/-- `AddExtensionMode.handle_click_a`.  The color prompt is a round trip
to the observer; its eventual `interact.result` answer is passed in as
`promptResult` (used, and stored as the new prompt default, only on the
success path). -/
def AddExtensionMode_handle_click_a (st : InteractiveState) (c : Option Nat)
    (promptResult : Option String) : InteractiveState × List Broadcast :=
  match c with
  | none => (st, [])
  | some tid =>
    match st.extension_source with
    | none =>
        ({ st with extension_source := some tid },
         [.setModeInfo "Current source"])
    | some sid =>
      match st.chart.classes[sid]?, st.chart.classes[tid]? with
      | some s, some t =>
          if t.x - s.x ∉ ([0, 1, 3] : List Int) then (st, [])
          else if t.y - s.y < 2 then (st, [])
          else
            let color := promptResult
            let ae := add_extension_a st.chart sid tid
            let d' := { ae.1 with
              edges := updAt ae.1.edges ae.2.1 (fun e => { e with color := color }) }
            let up := update_a d'
            ({ st with
                chart := up.1
                extension_prev_color_default := color
                extension := some ae.2.1
                extension_source := none },
             [.prompt "Color?" st.extension_prev_color_default]
               ++ ae.2.2 ++ up.2 ++ [.adjustBend])
      | _, _ => (st, [])

/-! ### Derived notions used to state and prove the claims -/

/-- Recursive form of the `list.insert(idx, range)` call of
`add_page_range_a`: insert before the first entry whose lower bound
exceeds `r`'s, else append.  Proved equal to the `take`/`drop` insertion
at `insertPos` below. -/
def insertSorted (l : List (Int × Int)) (r : Int × Int) : List (Int × Int) :=
  match l with
  | [] => [r]
  | p :: rest => if p.1 > r.1 then r :: p :: rest else p :: insertSorted rest r

/-- Ascending-by-lower-bound order on the page list. -/
def pageListSorted (l : List (Int × Int)) : Prop :=
  l.Pairwise (fun p q => p.1 ≤ q.1)

/-- Fold a sequence of `add_page_range_a` calls (states only). -/
def applyRanges (d : ChartData) (rs : List (Int × Int)) : ChartData :=
  rs.foldl (fun d r => (add_page_range_a d r).1) d

/-- The pages recorded on class `i` (empty for an absent id). -/
def pagesOf (d : ChartData) (i : Nat) : List Int :=
  ((d.classes[i]?).map ChartClass.pages).getD []

/-- Abbreviation for an edge record as `add_edge_a` constructs it
(possibly recolored afterwards). -/
def newEdge (ty : EdgeType) (eid sid tid : Nat) (pg : Option Int) (col : Option String) :
    ChartEdge :=
  { type := ty, id := eid, source := sid, target := tid, page := pg, color := col, bend := 0 }

/-- The elements of `l` carry consecutive `f`-values starting at `n`:
the element at position `i` has `f`-value `n + i`. -/
def idsFrom {α : Type} (f : α → Nat) : Nat → List α → Prop
  | _, [] => True
  | n, a :: as => f a = n ∧ idsFrom f (n + 1) as

/-- The index-identity invariant of claim C9: positions coincide with
assigned ids for nodes, classes and edges, and every class is recorded
in the bidegree map under its own `(x, y)` key. -/
def chartInv (d : ChartData) : Prop :=
  idsFrom ChartNode.idx 0 d.nodes ∧
  idsFrom ChartClass.id 0 d.classes ∧
  idsFrom ChartEdge.id 0 d.edges ∧
  ∀ c ∈ d.classes, c.id ∈ bdLookup d.classes_by_bidegree (c.x, c.y)

/-- The chart mutations of claim C9. -/
inductive ChartOp where
  | addNode (node : ChartNode)
  | addClass (x y : Int)
  | addStructline (sid tid : Nat)
  | addExtension (sid tid : Nat)
  | addDifferential (page : Int) (sid tid : Nat) (auto : Bool)

/-- State effect of one chart mutation. -/
def applyOp (d : ChartData) : ChartOp → ChartData
  | .addNode node => (add_node_a d node).1
  | .addClass x y => (add_class_a d x y).1
  | .addStructline sid tid => (add_structline_a d sid tid).1
  | .addExtension sid tid => (add_extension_a d sid tid).1
  | .addDifferential page sid tid auto => (add_differential_a d page sid tid auto).1

/-- Fold a sequence of chart mutations. -/
def applyOps (d : ChartData) (ops : List ChartOp) : ChartData :=
  ops.foldl applyOp d

/-! ### Concrete sessions used by the witnesses -/

/-- A chart holding classes `0 : (1, 0)` and `1 : (0, 2)`. -/
def diffChart : ChartData :=
  (add_class_a (add_class_a (initialChartData "w") 1 0).1 0 2).1

/-- An `AddDifferentialMode` session with class `0` pending as source. -/
def diffSession : InteractiveState :=
  { chart := diffChart
    mode := .AddDifferentialMode
    differential_source := some 0
    extension_source := none
    extension_prev_color_default := some "black"
    extension := none }

/-- The first class of `diffChart`, at bidegree `(1, 0)`. -/
def diffC0 : ChartClass :=
  { x := 1, y := 0, id := 0, node_list := [0], pages := [], edges_list := [] }

/-- The second class of `diffChart`, at bidegree `(0, 2)`. -/
def diffC1 : ChartClass :=
  { x := 0, y := 2, id := 1, node_list := [0], pages := [], edges_list := [] }

/-- A chart holding a source class `0 : (0, 0)` and target classes
`1 : (0, 2)`, `2 : (1, 2)`, `3 : (3, 5)`, `4 : (2, 2)`, `5 : (0, 1)`. -/
def extChart : ChartData :=
  (add_class_a (add_class_a (add_class_a (add_class_a (add_class_a
    (add_class_a (initialChartData "w") 0 0).1 0 2).1 1 2).1 3 5).1 2 2).1 0 1).1

/-- An `AddExtensionMode` session with class `0` pending as source. -/
def extSession : InteractiveState :=
  { chart := extChart
    mode := .AddExtensionMode
    differential_source := none
    extension_source := some 0
    extension_prev_color_default := some "black"
    extension := none }

/-! ### Helper lemmas -/

theorem length_updAt {α : Type} (l : List α) (i : Nat) (f : α → α) :
    (updAt l i f).length = l.length := by
  induction l generalizing i with
  | nil => rfl
  | cons a as ih =>
    cases i with
    | zero => rfl
    | succ n => simp [updAt, ih]

theorem getElem?_updAt {α : Type} (l : List α) (i j : Nat) (f : α → α) :
    (updAt l i f)[j]? = if i = j then (l[j]?).map f else l[j]? := by
  induction l generalizing i j with
  | nil => simp [updAt]
  | cons a as ih =>
    cases i with
    | zero =>
      cases j with
      | zero => simp [updAt]
      | succ m => simp [updAt]
    | succ n =>
      cases j with
      | zero => simp [updAt]
      | succ m =>
        simp only [updAt, List.getElem?_cons_succ, ih]
        by_cases h : n = m <;> simp [h]

theorem mem_updAt {α : Type} {l : List α} {i : Nat} {f : α → α} {a : α}
    (h : a ∈ updAt l i f) : a ∈ l ∨ ∃ b, b ∈ l ∧ a = f b := by
  induction l generalizing i with
  | nil => simp [updAt] at h
  | cons b bs ih =>
    cases i with
    | zero =>
      rcases List.mem_cons.mp h with h1 | h1
      · exact Or.inr ⟨b, List.mem_cons_self b bs, h1⟩
      · exact Or.inl (List.mem_cons_of_mem b h1)
    | succ n =>
      rcases List.mem_cons.mp h with h1 | h1
      · exact Or.inl (h1 ▸ List.mem_cons_self b bs)
      · rcases ih h1 with h2 | ⟨c, hc, hac⟩
        · exact Or.inl (List.mem_cons_of_mem b h2)
        · exact Or.inr ⟨c, List.mem_cons_of_mem b hc, hac⟩

theorem updAt_append_length {α : Type} (l : List α) (a : α) (f : α → α) :
    updAt (l ++ [a]) l.length f = l ++ [f a] := by
  induction l with
  | nil => rfl
  | cons b bs ih => simp [updAt, ih]

theorem idsFrom_append {α : Type} (f : α → Nat) (n : Nat) (l : List α) (a : α) :
    idsFrom f n (l ++ [a]) ↔ idsFrom f n l ∧ f a = n + l.length := by
  induction l generalizing n with
  | nil => simp [idsFrom]
  | cons b bs ih =>
    have h := ih (n + 1)
    constructor
    · intro hh
      have h2 := h.mp hh.2
      refine ⟨⟨hh.1, h2.1⟩, ?_⟩
      have h3 := h2.2
      simp only [List.length_cons]
      omega
    · intro hh
      refine ⟨hh.1.1, h.mpr ⟨hh.1.2, ?_⟩⟩
      have h3 := hh.2
      simp only [List.length_cons] at h3
      omega

theorem idsFrom_updAt {α : Type} (f : α → Nat) (g : α → α)
    (hg : ∀ b, f (g b) = f b) {n : Nat} {l : List α} (h : idsFrom f n l) (i : Nat) :
    idsFrom f n (updAt l i g) := by
  induction l generalizing n i with
  | nil => exact h
  | cons a as ih =>
    cases i with
    | zero => exact ⟨(hg a).trans h.1, h.2⟩
    | succ m => exact ⟨h.1, ih h.2 m⟩

theorem idsFrom_getElem {α : Type} {f : α → Nat} {n : Nat} {l : List α}
    (h : idsFrom f n l) (i : Nat) (hi : i < l.length) : f (l.get ⟨i, hi⟩) = n + i := by
  induction l generalizing n i with
  | nil => simp at hi
  | cons a as ih =>
    cases i with
    | zero => exact h.1
    | succ m =>
      have hm : m < as.length := by simpa using Nat.lt_of_succ_lt_succ hi
      calc f ((a :: as).get ⟨m + 1, hi⟩) = f (as.get ⟨m, hm⟩) := rfl
        _ = n + 1 + m := ih h.2 m hm
        _ = n + (m + 1) := by omega

theorem bdLookup_bdInsert_self (m : List ((Int × Int) × List Nat)) (k : Int × Int) (cid : Nat) :
    bdLookup (bdInsert m k cid) k = bdLookup m k ++ [cid] := by
  induction m with
  | nil => simp [bdInsert, bdLookup]
  | cons p rest ih =>
    obtain ⟨a, b⟩ := p
    by_cases h : a = k <;> simp [bdInsert, bdLookup, h, ih]

theorem bdLookup_bdInsert_ne (m : List ((Int × Int) × List Nat)) (k k2 : Int × Int)
    (cid : Nat) (hne : k2 ≠ k) :
    bdLookup (bdInsert m k cid) k2 = bdLookup m k2 := by
  induction m with
  | nil => simp [bdInsert, bdLookup, Ne.symm hne]
  | cons p rest ih =>
    obtain ⟨a, b⟩ := p
    by_cases h : a = k
    · have h2 : a ≠ k2 := by
        rw [h]
        exact Ne.symm hne
      simp [bdInsert, bdLookup, h, h2, Ne.symm hne]
    · simp [bdInsert, bdLookup, h, ih]

theorem insertPos_le_length (l : List (Int × Int)) (r : Int × Int) :
    insertPos l r ≤ l.length := by
  induction l with
  | nil => simp [insertPos]
  | cons p rest ih =>
    simp only [insertPos]
    split
    · simp
    · simpa using Nat.succ_le_succ ih

theorem take_append_drop_insertPos (l : List (Int × Int)) (r : Int × Int) :
    l.take (insertPos l r) ++ r :: l.drop (insertPos l r) = insertSorted l r := by
  induction l with
  | nil => rfl
  | cons p rest ih =>
    simp only [insertPos, insertSorted]
    split
    · simp
    · simpa using ih

theorem mem_insertSorted (l : List (Int × Int)) (r q : Int × Int) :
    q ∈ insertSorted l r ↔ q = r ∨ q ∈ l := by
  induction l with
  | nil => simp [insertSorted]
  | cons p rest ih =>
    simp only [insertSorted]
    split
    · simp [or_comm, or_assoc, or_left_comm]
    · simp [ih]
      tauto

theorem pageListSorted_insertSorted {l : List (Int × Int)} (r : Int × Int)
    (h : pageListSorted l) : pageListSorted (insertSorted l r) := by
  induction l with
  | nil => simp [insertSorted, pageListSorted]
  | cons p rest ih =>
    rcases List.pairwise_cons.mp h with ⟨hp, hrest⟩
    simp only [insertSorted]
    split
    · rename_i hlt
      refine List.pairwise_cons.mpr ⟨?_, h⟩
      intro q hq
      rcases List.mem_cons.mp hq with h1 | h1
      · subst h1
        omega
      · have := hp q h1
        omega
    · rename_i hge
      refine List.pairwise_cons.mpr ⟨?_, ih hrest⟩
      intro q hq
      rcases (mem_insertSorted rest r q).mp hq with h1 | h1
      · subst h1
        omega
      · exact hp q h1

theorem nodup_insertSorted {l : List (Int × Int)} {r : Int × Int}
    (hmem : r ∉ l) (h : l.Nodup) : (insertSorted l r).Nodup := by
  induction l with
  | nil => simp [insertSorted]
  | cons p rest ih =>
    rcases List.nodup_cons.mp h with ⟨hp, hrest⟩
    have hrp : r ≠ p := fun hh => hmem (hh ▸ List.mem_cons_self p rest)
    have hrrest : r ∉ rest := fun hh => hmem (List.mem_cons_of_mem p hh)
    simp only [insertSorted]
    split
    · exact List.nodup_cons.mpr ⟨by simp [hrp, hrrest], h⟩
    · refine List.nodup_cons.mpr ⟨?_, ih hrrest hrest⟩
      intro hin
      rcases (mem_insertSorted rest r p).mp hin with h1 | h1
      · exact hrp h1.symm
      · exact hp h1

theorem insertPos_spec (l : List (Int × Int)) (r : Int × Int) :
    (∀ j (_hj : j < insertPos l r) (hl : j < l.length), (l.get ⟨j, hl⟩).1 ≤ r.1) ∧
    (∀ hp : insertPos l r < l.length, r.1 < (l.get ⟨insertPos l r, hp⟩).1) := by
  induction l with
  | nil =>
    refine ⟨fun j hj hl => absurd hl (by simp), fun hp => absurd hp (by simp [insertPos])⟩
  | cons p rest ih =>
    simp only [insertPos]
    split
    · rename_i hlt
      exact ⟨fun j hj hl => absurd hj (by omega), fun hp => hlt⟩
    · rename_i hge
      refine ⟨fun j hj hl => ?_, fun hp => ?_⟩
      · cases j with
        | zero =>
          show p.1 ≤ r.1
          omega
        | succ m =>
          exact ih.1 m (by omega) (by simpa using Nat.lt_of_succ_lt_succ hl)
      · exact ih.2 (by simpa using Nat.lt_of_succ_lt_succ hp)

theorem add_page_range_mem {d : ChartData} {r : Int × Int} (h : r ∉ d.page_list) :
    (add_page_range_a d r).1.page_list = insertSorted d.page_list r := by
  simp [add_page_range_a, h, take_append_drop_insertPos]

theorem add_page_range_not_mem_eq {d : ChartData} {r : Int × Int} (h : r ∉ d.page_list) :
    add_page_range_a d r =
      ({ d with page_list := insertSorted d.page_list r },
       [.insertPageRange r (insertPos d.page_list r)]) := by
  simp [add_page_range_a, h, take_append_drop_insertPos]

theorem add_page_range_of_mem {d : ChartData} {r : Int × Int} (hm : r ∈ d.page_list) :
    add_page_range_a d r = (d, []) := by
  simp [add_page_range_a, hm]

theorem mem_add_page_range_self (d : ChartData) (r : Int × Int) :
    r ∈ (add_page_range_a d r).1.page_list := by
  by_cases hm : r ∈ d.page_list
  · rw [add_page_range_of_mem hm]
    exact hm
  · rw [add_page_range_mem hm]
    exact (mem_insertSorted _ _ _).mpr (Or.inl rfl)

theorem sorted_nodup_applyRanges {d : ChartData} (h1 : pageListSorted d.page_list)
    (h2 : d.page_list.Nodup) (rs : List (Int × Int)) :
    pageListSorted (applyRanges d rs).page_list ∧ (applyRanges d rs).page_list.Nodup := by
  induction rs generalizing d with
  | nil => exact ⟨h1, h2⟩
  | cons r rest ih =>
    have hstep : applyRanges d (r :: rest) = applyRanges (add_page_range_a d r).1 rest := rfl
    rw [hstep]
    by_cases hm : r ∈ d.page_list
    · rw [add_page_range_of_mem hm]
      exact ih h1 h2
    · refine ih ?_ ?_
      · rw [add_page_range_mem hm]
        exact pageListSorted_insertSorted r h1
      · rw [add_page_range_mem hm]
        exact nodup_insertSorted hm h2

/-- C1: `add_page_range` is idempotent — a call on a chart whose page
list already contains the range leaves the state unchanged and emits
nothing, so inserting a fresh range twice emits exactly one
`chart.insert_page_range` broadcast in total; the new range is inserted
before the first entry whose lower bound exceeds its own (else
appended), and after any sequence of calls the page list stays sorted
ascending by lower bound with no duplicate pairs. -/
theorem claim_C1 (d : ChartData) (r : Int × Int) :
    (r ∈ d.page_list → add_page_range_a d r = (d, [])) ∧
    (r ∉ d.page_list →
      (add_page_range_a d r).2 = [.insertPageRange r (insertPos d.page_list r)] ∧
      add_page_range_a (add_page_range_a d r).1 r = ((add_page_range_a d r).1, []) ∧
      (add_page_range_a d r).2.length
        + (add_page_range_a (add_page_range_a d r).1 r).2.length = 1 ∧
      (add_page_range_a d r).1.page_list =
        d.page_list.take (insertPos d.page_list r)
          ++ r :: d.page_list.drop (insertPos d.page_list r) ∧
      (∀ j (_hj : j < insertPos d.page_list r) (hl : j < d.page_list.length),
        (d.page_list.get ⟨j, hl⟩).1 ≤ r.1) ∧
      (∀ hp : insertPos d.page_list r < d.page_list.length,
        r.1 < (d.page_list.get ⟨insertPos d.page_list r, hp⟩).1)) ∧
    (∀ (name : String) (rs : List (Int × Int)),
      pageListSorted (applyRanges (initialChartData name) rs).page_list ∧
      (applyRanges (initialChartData name) rs).page_list.Nodup) := by
  refine ⟨fun hm => add_page_range_of_mem hm, fun hm => ?_, fun name rs => ?_⟩
  · have hsecond : add_page_range_a (add_page_range_a d r).1 r =
        ((add_page_range_a d r).1, []) :=
      add_page_range_of_mem (mem_add_page_range_self d r)
    refine ⟨by simp [add_page_range_a, hm], hsecond, ?_, by simp [add_page_range_a, hm],
      (insertPos_spec _ _).1, (insertPos_spec _ _).2⟩
    rw [hsecond]
    simp [add_page_range_a, hm]
  · refine sorted_nodup_applyRanges ?_ ?_ rs
    · show List.Pairwise _ _
      simp [initialChartData, INFINITY]
    · simp [initialChartData, INFINITY]

/-- Witness for C1 at concrete inputs: on a fresh chart the already
present range `(2, 65535)` is a no-op, and the fresh range `(3, 4)` is
broadcast once, at index 1. -/
theorem claim_C1_witness :
    add_page_range_a (initialChartData "w") (2, 65535) = (initialChartData "w", []) ∧
    (add_page_range_a (initialChartData "w") (3, 4)).2 = [.insertPageRange (3, 4) 1] ∧
    (add_page_range_a (initialChartData "w") (3, 4)).2.length
      + (add_page_range_a (add_page_range_a (initialChartData "w") (3, 4)).1 (3, 4)).2.length
      = 1 :=
  ⟨(claim_C1 (initialChartData "w") (2, 65535)).1 (by decide),
   ((claim_C1 (initialChartData "w") (3, 4)).2.1 (by decide)).1,
   ((claim_C1 (initialChartData "w") (3, 4)).2.1 (by decide)).2.2.1⟩

theorem add_element_spec (d : ChartData) (e : Nat) :
    ((d.updated_elements.Nodup → (add_element_to_update d e).updated_elements.Nodup) ∧
     ∀ x, x ∈ (add_element_to_update d e).updated_elements ↔
       x ∈ d.updated_elements ∨ x = e) := by
  unfold add_element_to_update
  by_cases hm : e ∈ d.updated_elements
  · simp only [hm, if_true]
    exact ⟨id, fun x => ⟨Or.inl, fun h => h.elim id (fun hx => hx ▸ hm)⟩⟩
  · simp only [hm, if_false]
    constructor
    · intro h
      simpa [List.nodup_append] using ⟨h, hm⟩
    · intro x
      simp [List.mem_append]

theorem fold_queue_spec (l : List Nat) (d : ChartData) (h : d.updated_elements.Nodup) :
    (l.foldl add_element_to_update d).updated_elements.Nodup ∧
    ∀ e, e ∈ (l.foldl add_element_to_update d).updated_elements ↔
      e ∈ d.updated_elements ∨ e ∈ l := by
  induction l generalizing d with
  | nil => simpa using h
  | cons a as ih =>
    have hstep := add_element_spec d a
    have hrec := ih (add_element_to_update d a) (hstep.1 h)
    refine ⟨hrec.1, fun e => ?_⟩
    rw [List.foldl_cons, hrec.2 e, hstep.2 e]
    simp [or_assoc, eq_comm]

/-- C2: after any sequence of `queue_update` calls, one `flush_updates`
emits exactly one `chart.class.update` broadcast whose batch holds
exactly the distinct queued elements (repeats collapse), the dirty set
is empty immediately afterwards, and a following queue/flush cycle
broadcasts exactly its own queued elements — nothing is lost and
nothing is re-broadcast. -/
theorem claim_C2 (d : ChartData) (l1 l2 : List Nat) (h : d.updated_elements = []) :
    (update_a (l1.foldl add_element_to_update d)).2 =
      [.classUpdate (l1.foldl add_element_to_update d).updated_elements] ∧
    (l1.foldl add_element_to_update d).updated_elements.Nodup ∧
    (∀ e, e ∈ (l1.foldl add_element_to_update d).updated_elements ↔ e ∈ l1) ∧
    (l1.foldl add_element_to_update d).updated_elements.length = l1.dedup.length ∧
    (update_a (l1.foldl add_element_to_update d)).1.updated_elements = [] ∧
    (update_a (l2.foldl add_element_to_update
        (update_a (l1.foldl add_element_to_update d)).1)).2 =
      [.classUpdate (l2.foldl add_element_to_update
        (update_a (l1.foldl add_element_to_update d)).1).updated_elements] ∧
    (∀ e, e ∈ (l2.foldl add_element_to_update
        (update_a (l1.foldl add_element_to_update d)).1).updated_elements ↔ e ∈ l2) := by
  have hnd : d.updated_elements.Nodup := by
    rw [h]
    exact List.nodup_nil
  have h1 := fold_queue_spec l1 d hnd
  have hmem1 : ∀ e, e ∈ (l1.foldl add_element_to_update d).updated_elements ↔ e ∈ l1 := by
    intro e
    rw [(h1.2 e), h]
    simp
  have hempty : (update_a (l1.foldl add_element_to_update d)).1.updated_elements = [] := rfl
  have hnd2 : (update_a (l1.foldl add_element_to_update d)).1.updated_elements.Nodup := by
    rw [hempty]
    exact List.nodup_nil
  have h2 := fold_queue_spec l2 (update_a (l1.foldl add_element_to_update d)).1 hnd2
  refine ⟨rfl, h1.1, hmem1, ?_, hempty, rfl, fun e => ?_⟩
  · have hperm : (l1.foldl add_element_to_update d).updated_elements.Perm l1.dedup := by
      refine (List.perm_ext_iff_of_nodup h1.1 l1.nodup_dedup).mpr ?_
      intro a
      rw [hmem1 a, List.mem_dedup]
    exact hperm.length_eq
  · rw [h2.2 e, hempty]
    simp

/-- Witness for C2: queuing `[5, 7, 5]` then flushing broadcasts the
two-element batch `[5, 7]`, leaves the dirty set empty, and a second
cycle queuing `[7]` broadcasts exactly `[7]`. -/
theorem claim_C2_witness :
    (update_a ([5, 7, 5].foldl add_element_to_update (initialChartData "w"))).2 =
      [.classUpdate ([5, 7, 5].foldl add_element_to_update
        (initialChartData "w")).updated_elements] ∧
    ([5, 7, 5].foldl add_element_to_update (initialChartData "w")).updated_elements.Nodup ∧
    (∀ e, e ∈ ([5, 7, 5].foldl add_element_to_update
        (initialChartData "w")).updated_elements ↔ e ∈ [5, 7, 5]) ∧
    ([5, 7, 5].foldl add_element_to_update (initialChartData "w")).updated_elements.length =
      ([5, 7, 5] : List Nat).dedup.length ∧
    (update_a ([5, 7, 5].foldl add_element_to_update
        (initialChartData "w"))).1.updated_elements = [] ∧
    (update_a ([7].foldl add_element_to_update
        (update_a ([5, 7, 5].foldl add_element_to_update (initialChartData "w"))).1)).2 =
      [.classUpdate ([7].foldl add_element_to_update
        (update_a ([5, 7, 5].foldl add_element_to_update
          (initialChartData "w"))).1).updated_elements] ∧
    (∀ e, e ∈ ([7].foldl add_element_to_update
        (update_a ([5, 7, 5].foldl add_element_to_update
          (initialChartData "w"))).1).updated_elements ↔ e ∈ [7]) :=
  claim_C2 (initialChartData "w") [5, 7, 5] [7] rfl

/-- C3 counterexample: `add_page_range` on a range the fresh chart's page
list already holds returns before broadcasting, emitting zero outbound
messages — not exactly one. -/
theorem claim_C3_counterexample :
    (add_page_range_a (initialChartData "w") (2, 65535)).2.length = 0 := rfl

/-- C3 (amended): `add_node`, `add_class`, `add_structline`,
`add_extension` and `flush_updates` each emit exactly one broadcast per
call; `add_page_range` emits one broadcast when the range is new and
zero when it is already present; `add_differential` emits exactly one
broadcast when `auto` is false, and with `auto` emits three (page range,
update batch, edge add) when `[page, page]` is new and two otherwise. -/
theorem claim_C3 :
    (∀ (d : ChartData) (node : ChartNode), (add_node_a d node).2.length = 1) ∧
    (∀ (d : ChartData) (x y : Int), (add_class_a d x y).2.2.length = 1) ∧
    (∀ (d : ChartData) (s t : Nat), (add_structline_a d s t).2.2.length = 1) ∧
    (∀ (d : ChartData) (s t : Nat), (add_extension_a d s t).2.2.length = 1) ∧
    (∀ d : ChartData, (update_a d).2.length = 1) ∧
    (∀ (d : ChartData) (r : Int × Int),
      (add_page_range_a d r).2.length = if r ∈ d.page_list then 0 else 1) ∧
    (∀ (d : ChartData) (p : Int) (s t : Nat),
      (add_differential_a d p s t false).2.2.length = 1) ∧
    (∀ (d : ChartData) (p : Int) (s t : Nat),
      (add_differential_a d p s t true).2.2.length =
        if (p, p) ∈ d.page_list then 2 else 3) := by
  refine ⟨fun d node => rfl, fun d x y => rfl, fun d s t => rfl, fun d s t => rfl,
    fun d => rfl, fun d r => ?_, fun d p s t => rfl, fun d p s t => ?_⟩
  · by_cases hm : r ∈ d.page_list <;> simp [add_page_range_a, hm]
  · by_cases hm : (p, p) ∈ d.page_list <;>
      simp [add_differential_a, recordPages, add_page_range_a, update_a, add_edge_a, hm]

theorem add_page_range_classes (d : ChartData) (r : Int × Int) :
    (add_page_range_a d r).1.classes = d.classes := by
  unfold add_page_range_a
  split <;> rfl

theorem add_page_range_updated (d : ChartData) (r : Int × Int) :
    (add_page_range_a d r).1.updated_elements = d.updated_elements := by
  unfold add_page_range_a
  split <;> rfl

theorem add_page_range_edges (d : ChartData) (r : Int × Int) :
    (add_page_range_a d r).1.edges = d.edges := by
  unfold add_page_range_a
  split <;> rfl

theorem add_page_range_bd (d : ChartData) (r : Int × Int) :
    (add_page_range_a d r).1.classes_by_bidegree = d.classes_by_bidegree := by
  unfold add_page_range_a
  split <;> rfl

theorem add_page_range_nodes (d : ChartData) (r : Int × Int) :
    (add_page_range_a d r).1.nodes = d.nodes := by
  unfold add_page_range_a
  split <;> rfl

theorem getElem?_map_updAt {α β : Type} (F : α → β) (g : α → α)
    (hFg : ∀ a, F (g a) = F a) (l : List α) (i j : Nat) :
    ((updAt l i g)[j]?).map F = (l[j]?).map F := by
  rw [getElem?_updAt]
  by_cases h : i = j
  · simp only [h, if_true]
    cases l[j]? <;> simp [hFg]
  · simp [h]

theorem mem_pages_double_updAt (cl : List ChartClass) (p : Int) (s t i : Nat)
    (hi : i < cl.length) (his : i = s ∨ i = t) :
    ∃ c, (updAt (updAt cl s (fun c => class_add_page c p)) t
        (fun c => class_add_page c p))[i]? = some c ∧ p ∈ c.pages := by
  have hbase : cl[i]? = some cl[i] := List.getElem?_eq_getElem hi
  rw [getElem?_updAt, getElem?_updAt, hbase]
  by_cases ht2 : t = i
  · by_cases hs2 : s = i <;> simp [ht2, hs2, class_add_page]
  · have hs2 : s = i := by
      rcases his with h | h
      · exact h.symm
      · exact absurd h.symm ht2
    simp [ht2, hs2, class_add_page]

theorem pagesOf_add_edge (d : ChartData) (ty : EdgeType) (pg : Option Int)
    (sid tid i : Nat) : pagesOf (add_edge_a d ty pg sid tid).1 i = pagesOf d i := by
  have hcl : (add_edge_a d ty pg sid tid).1.classes
      = updAt (updAt d.classes sid
          (fun c => { c with edges_list := c.edges_list ++ [d.edges.length] })) tid
          (fun c => { c with edges_list := c.edges_list ++ [d.edges.length] }) := rfl
  unfold pagesOf
  rw [hcl,
    getElem?_map_updAt ChartClass.pages
      (fun c => { c with edges_list := c.edges_list ++ [d.edges.length] }) (fun a => rfl),
    getElem?_map_updAt ChartClass.pages
      (fun c => { c with edges_list := c.edges_list ++ [d.edges.length] }) (fun a => rfl)]

theorem pagesOf_add_page_range (d : ChartData) (r : Int × Int) (i : Nat) :
    pagesOf (add_page_range_a d r).1 i = pagesOf d i := by
  unfold pagesOf
  rw [add_page_range_classes]

/-- C4: with `auto`, `add_differential` records that both endpoint
classes participate on `page`, registers `[page, page]` as a page range
and flushes pending updates before the edge is constructed: its
broadcast sequence is the page-range insertion (when the range is new),
then the update batch, then `chart.edge.add` — so both precede the
edge-add broadcast. -/
theorem claim_C4 (d : ChartData) (p : Int) (s t : Nat)
    (hs : s < d.classes.length) (ht : t < d.classes.length) :
    (add_differential_a d p s t true).2.2 =
      (if (p, p) ∈ d.page_list then ([] : List Broadcast)
       else [.insertPageRange (p, p) (insertPos d.page_list (p, p))])
      ++ [.classUpdate d.updated_elements,
          .edgeAdd .differential d.edges.length s t (some p)] ∧
    (p, p) ∈ (add_differential_a d p s t true).1.page_list ∧
    p ∈ pagesOf (add_differential_a d p s t true).1 s ∧
    p ∈ pagesOf (add_differential_a d p s t true).1 t := by
  have hstate : (add_differential_a d p s t true).1 =
      (add_edge_a (update_a (add_page_range_a (recordPages d p s t) (p, p)).1).1
        .differential (some p) s t).1 := rfl
  have hpages : ∀ i, i < d.classes.length → (i = s ∨ i = t) →
      p ∈ pagesOf (add_differential_a d p s t true).1 i := by
    intro i hilt his
    obtain ⟨c, hc, hp⟩ := mem_pages_double_updAt d.classes p s t i hilt his
    rw [hstate, pagesOf_add_edge]
    have hupd : pagesOf (update_a (add_page_range_a (recordPages d p s t) (p, p)).1).1 i
        = pagesOf (add_page_range_a (recordPages d p s t) (p, p)).1 i := rfl
    rw [hupd, pagesOf_add_page_range]
    unfold pagesOf recordPages
    simp only [hc]
    exact hp
  refine ⟨?_, ?_, hpages s hs (Or.inl rfl), hpages t ht (Or.inr rfl)⟩
  · by_cases hm : (p, p) ∈ d.page_list <;>
      simp [add_differential_a, recordPages, add_page_range_a, update_a, add_edge_a, hm]
  · rw [hstate]
    show (p, p) ∈ (add_page_range_a _ (p, p)).1.page_list
    exact mem_add_page_range_self _ _

/-- Witness for C4: on a two-class chart, `add_differential(2, 0, 1)`
broadcasts the page-range insertion and the update batch before the
edge-add broadcast, registers `(2, 2)` and records page 2 on both
endpoints. -/
theorem claim_C4_witness :
    (add_differential_a diffChart 2 0 1 true).2.2 =
      (if ((2 : Int), (2 : Int)) ∈ diffChart.page_list then ([] : List Broadcast)
       else [.insertPageRange (2, 2) (insertPos diffChart.page_list (2, 2))])
      ++ [.classUpdate diffChart.updated_elements,
          .edgeAdd .differential diffChart.edges.length 0 1 (some 2)] ∧
    ((2 : Int), (2 : Int)) ∈ (add_differential_a diffChart 2 0 1 true).1.page_list ∧
    (2 : Int) ∈ pagesOf (add_differential_a diffChart 2 0 1 true).1 0 ∧
    (2 : Int) ∈ pagesOf (add_differential_a diffChart 2 0 1 true).1 1 :=
  claim_C4 diffChart 2 0 1 (by decide) (by decide)

theorem add_differential_edges (d : ChartData) (p : Int) (s t : Nat) :
    (add_differential_a d p s t true).1.edges =
      d.edges ++ [newEdge .differential d.edges.length s t (some p) none] ∧
    (add_differential_a d p s t true).2.1 = d.edges.length := by
  have hu : (update_a (add_page_range_a (recordPages d p s t) (p, p)).1).1.edges = d.edges := by
    show (add_page_range_a (recordPages d p s t) (p, p)).1.edges = d.edges
    rw [add_page_range_edges]
    rfl
  constructor
  · show (update_a (add_page_range_a (recordPages d p s t) (p, p)).1).1.edges
        ++ [newEdge EdgeType.differential
          (update_a (add_page_range_a (recordPages d p s t) (p, p)).1).1.edges.length
          s t (some p) none]
        = d.edges ++ [newEdge EdgeType.differential d.edges.length s t (some p) none]
    rw [hu]
  · show (update_a (add_page_range_a (recordPages d p s t) (p, p)).1).1.edges.length
        = d.edges.length
    rw [hu]

/-- C5: in `AddDifferential` mode with a pending source `s`, a second
click on class `t` with `s.x ≠ t.x + 1` aborts with no change to the
session (chart and pending source included); with `s.x = t.x + 1` it
appends exactly one differential edge on page `t.y - s.y`, colored the
fixed default blue, and clears the pending source. -/
theorem claim_C5 (st : InteractiveState) (s t : Nat) (sc tc : ChartClass)
    (hsrc : st.differential_source = some s)
    (hs : st.chart.classes[s]? = some sc) (ht : st.chart.classes[t]? = some tc) :
    (sc.x ≠ tc.x + 1 → AddDifferentialMode_handle_click_a st (some t) = (st, [])) ∧
    (sc.x = tc.x + 1 →
      (AddDifferentialMode_handle_click_a st (some t)).1.chart.edges =
        st.chart.edges ++ [newEdge .differential st.chart.edges.length s t
          (some (tc.y - sc.y)) (some "blue")] ∧
      (AddDifferentialMode_handle_click_a st (some t)).1.differential_source = none) := by
  constructor
  · intro hne
    simp [AddDifferentialMode_handle_click_a, hsrc, hs, ht, hne]
  · intro heq
    have hed := add_differential_edges st.chart (tc.y - sc.y) s t
    simp only [AddDifferentialMode_handle_click_a, hsrc, hs, ht, heq, ne_eq,
      not_true_eq_false, if_false]
    constructor
    · show updAt (add_differential_a st.chart (tc.y - sc.y) s t true).1.edges
          (add_differential_a st.chart (tc.y - sc.y) s t true).2.1
          (fun e => { e with color := some "blue" }) = _
      rw [hed.1, hed.2, updAt_append_length]
      simp [newEdge]
    · trivial

/-- Witness for C5: in the concrete session (source `(1, 0)` pending),
clicking the source itself (`1 ≠ 1 + 1`... i.e. `s.x = 1 ≠ t.x + 1 = 2`)
aborts with no change, and clicking the class at `(0, 2)` creates the
blue differential on page `2` and clears the pending source. -/
theorem claim_C5_witness :
    (AddDifferentialMode_handle_click_a diffSession (some 0) = (diffSession, [])) ∧
    (AddDifferentialMode_handle_click_a diffSession (some 1)).1.chart.edges =
      diffSession.chart.edges ++ [newEdge .differential diffSession.chart.edges.length 0 1
        (some (diffC1.y - diffC0.y)) (some "blue")] ∧
    (AddDifferentialMode_handle_click_a diffSession (some 1)).1.differential_source = none :=
  ⟨(claim_C5 diffSession 0 0 diffC0 diffC0 rfl rfl rfl).1 (by decide),
   (claim_C5 diffSession 0 1 diffC0 diffC1 rfl rfl rfl).2 (by decide)⟩

theorem add_extension_edges (d : ChartData) (s t : Nat) :
    (add_extension_a d s t).1.edges =
      d.edges ++ [newEdge .extension d.edges.length s t none none] ∧
    (add_extension_a d s t).2.1 = d.edges.length :=
  ⟨rfl, rfl⟩

/-- C6: in `AddExtension` mode with a pending source `s`, a second click
on class `t` is accepted iff the displacement satisfies
`t.x - s.x ∈ {0, 1, 3}` and `t.y - s.y ≥ 2`; a rejected click leaves the
whole session unchanged (pending source still set), and an accepted one
appends exactly one extension edge colored by the prompt answer. -/
theorem claim_C6 (st : InteractiveState) (s t : Nat) (sc tc : ChartClass)
    (resp : Option String) (hsrc : st.extension_source = some s)
    (hs : st.chart.classes[s]? = some sc) (ht : st.chart.classes[t]? = some tc) :
    (¬(tc.x - sc.x ∈ ([0, 1, 3] : List Int) ∧ 2 ≤ tc.y - sc.y) →
      AddExtensionMode_handle_click_a st (some t) resp = (st, []) ∧
      st.extension_source = some s) ∧
    ((tc.x - sc.x ∈ ([0, 1, 3] : List Int) ∧ 2 ≤ tc.y - sc.y) →
      (AddExtensionMode_handle_click_a st (some t) resp).1.chart.edges =
        st.chart.edges ++ [newEdge .extension st.chart.edges.length s t none resp] ∧
      (AddExtensionMode_handle_click_a st (some t) resp).1.extension_source = none) ∧
    ((AddExtensionMode_handle_click_a st (some t) resp).1.chart.edges.length
        = st.chart.edges.length + 1 ↔
      (tc.x - sc.x ∈ ([0, 1, 3] : List Int) ∧ 2 ≤ tc.y - sc.y)) := by
  have hreject : ¬(tc.x - sc.x ∈ ([0, 1, 3] : List Int) ∧ 2 ≤ tc.y - sc.y) →
      AddExtensionMode_handle_click_a st (some t) resp = (st, []) := by
    intro hne
    by_cases hmx : tc.x - sc.x ∈ ([0, 1, 3] : List Int)
    · have hmy : tc.y - sc.y < 2 := by
        rcases not_and_or.mp hne with h | h
        · exact absurd hmx h
        · omega
      simp [AddExtensionMode_handle_click_a, hsrc, hs, ht, hmx, hmy]
    · simp [AddExtensionMode_handle_click_a, hsrc, hs, ht, hmx]
  have haccept : (tc.x - sc.x ∈ ([0, 1, 3] : List Int) ∧ 2 ≤ tc.y - sc.y) →
      (AddExtensionMode_handle_click_a st (some t) resp).1.chart.edges =
        st.chart.edges ++ [newEdge .extension st.chart.edges.length s t none resp] ∧
      (AddExtensionMode_handle_click_a st (some t) resp).1.extension_source = none := by
    rintro ⟨hmx, hmy⟩
    have hmy2 : ¬(tc.y - sc.y < 2) := by omega
    have hed := add_extension_edges st.chart s t
    simp only [AddExtensionMode_handle_click_a, hsrc, hs, ht, hmx, hmy2, not_true_eq_false,
      if_false, ite_false]
    constructor
    · show updAt (add_extension_a st.chart s t).1.edges (add_extension_a st.chart s t).2.1
          (fun e => { e with color := resp }) = _
      rw [hed.1, hed.2, updAt_append_length]
      simp [newEdge]
    · trivial
  refine ⟨fun hne => ⟨hreject hne, hsrc⟩, haccept, ?_⟩
  constructor
  · intro hlen
    by_contra hne
    rw [hreject hne] at hlen
    simp at hlen
  · intro hacc
    rw [(haccept hacc).1]
    simp

/-- Witness for C6 covering the spec's sample displacements from the
source at `(0, 0)`: targets at `(0, 2)`, `(1, 2)` and `(3, 5)` are
accepted (one new edge each), targets at `(2, 2)` and `(0, 1)` are
rejected with the session untouched. -/
theorem claim_C6_witness :
    (AddExtensionMode_handle_click_a extSession (some 4) (some "red") = (extSession, [])) ∧
    (AddExtensionMode_handle_click_a extSession (some 5) (some "red") = (extSession, [])) ∧
    (AddExtensionMode_handle_click_a extSession (some 1) (some "red")).1.chart.edges.length
      = extSession.chart.edges.length + 1 ∧
    (AddExtensionMode_handle_click_a extSession (some 2) (some "red")).1.chart.edges.length
      = extSession.chart.edges.length + 1 ∧
    (AddExtensionMode_handle_click_a extSession (some 3) (some "red")).1.chart.edges.length
      = extSession.chart.edges.length + 1 :=
  ⟨((claim_C6 extSession 0 4 ⟨0, 0, 0, [0], [], []⟩ ⟨2, 2, 4, [0], [], []⟩ (some "red")
      rfl rfl rfl).1 (by decide)).1,
   ((claim_C6 extSession 0 5 ⟨0, 0, 0, [0], [], []⟩ ⟨0, 1, 5, [0], [], []⟩ (some "red")
      rfl rfl rfl).1 (by decide)).1,
   (claim_C6 extSession 0 1 ⟨0, 0, 0, [0], [], []⟩ ⟨0, 2, 1, [0], [], []⟩ (some "red")
      rfl rfl rfl).2.2.mpr (by decide),
   (claim_C6 extSession 0 2 ⟨0, 0, 0, [0], [], []⟩ ⟨1, 2, 2, [0], [], []⟩ (some "red")
      rfl rfl rfl).2.2.mpr (by decide),
   (claim_C6 extSession 0 3 ⟨0, 0, 0, [0], [], []⟩ ⟨3, 5, 3, [0], [], []⟩ (some "red")
      rfl rfl rfl).2.2.mpr (by decide)⟩

/-- C7: `interact.mode.set` fails with an unknown-mode error exactly when
the mode name is not registered, and otherwise sets the active mode to
the registered mode; `interact.mode.<sub>` fails with an invalid-command
error exactly when the active mode has no `handle__<sub>__a` handler,
and otherwise dispatches.  Both failures are surfaced as raised errors,
never dropped. -/
theorem claim_C7 (st : InteractiveState) (name sub : String) :
    ((∃ e, handle_interact_mode_set_a st name = .error e) ↔ lookupMode name = none) ∧
    (∀ m, lookupMode name = some m →
      handle_interact_mode_set_a st name = .ok { st with mode := m }) ∧
    ((∃ e, handle_interact_mode_a st sub = .error e) ↔ sub ∉ modeHandlerNames st.mode) ∧
    (sub ∈ modeHandlerNames st.mode → handle_interact_mode_a st sub = .ok ()) := by
  refine ⟨?_, ?_, ?_, ?_⟩
  · cases hl : lookupMode name with
    | some m => simp [handle_interact_mode_set_a, hl]
    | none => simp [handle_interact_mode_set_a, hl]
  · intro m hm
    simp [handle_interact_mode_set_a, hm]
  · by_cases hmem : sub ∈ modeHandlerNames st.mode <;>
      simp [handle_interact_mode_a, hmem]
  · intro hmem
    simp [handle_interact_mode_a, hmem]

/-- Witness for C7: on a fresh agent, setting mode `AddClassMode`
succeeds and activates it, setting an unregistered name errors, the
inherited `cancel` subcommand dispatches, and `nudge_class` (absent on
`NoMode`) errors. -/
theorem claim_C7_witness :
    handle_interact_mode_set_a (initialInteractiveState "w") "AddClassMode"
      = .ok { initialInteractiveState "w" with mode := .AddClassMode } ∧
    (∃ e, handle_interact_mode_set_a (initialInteractiveState "w") "Bogus" = .error e) ∧
    handle_interact_mode_a (initialInteractiveState "w") "cancel" = .ok () ∧
    (∃ e, handle_interact_mode_a (initialInteractiveState "w") "nudge_class" = .error e) :=
  ⟨(claim_C7 (initialInteractiveState "w") "AddClassMode" "cancel").2.1
      ModeName.AddClassMode (by decide),
   (claim_C7 (initialInteractiveState "w") "Bogus" "cancel").1.mpr (by decide),
   (claim_C7 (initialInteractiveState "w") "AddClassMode" "cancel").2.2.2 (by decide),
   (claim_C7 (initialInteractiveState "w") "Bogus" "nudge_class").2.2.1.mpr (by decide)⟩

/-- C8: from an empty chart, `add_class(0,0)`, `add_class(1,2)`,
`add_structline(first, second)` yields exactly two classes with ids 0
and 1 in creation order and exactly one edge whose stored and broadcast
source/target ids are 0 and 1, the edge id being appended to both
endpoint classes' incident-edge lists. -/
theorem claim_C8 :
    (add_structline_a (add_class_a (add_class_a (initialChartData "w") 0 0).1 1 2).1
      (add_class_a (initialChartData "w") 0 0).2.1.id
      (add_class_a (add_class_a (initialChartData "w") 0 0).1 1 2).2.1.id).1.classes.length
      = 2 ∧
    (add_class_a (initialChartData "w") 0 0).2.1.id = 0 ∧
    (add_class_a (add_class_a (initialChartData "w") 0 0).1 1 2).2.1.id = 1 ∧
    ((add_structline_a (add_class_a (add_class_a (initialChartData "w") 0 0).1 1 2).1 0
      1).1.classes.map ChartClass.id) = [0, 1] ∧
    (add_structline_a (add_class_a (add_class_a (initialChartData "w") 0 0).1 1 2).1 0
      1).1.edges = [newEdge .structline 0 0 1 none none] ∧
    (add_structline_a (add_class_a (add_class_a (initialChartData "w") 0 0).1 1 2).1 0
      1).2.2 = [.edgeAdd .structline 0 0 1 none] ∧
    ((add_structline_a (add_class_a (add_class_a (initialChartData "w") 0 0).1 1 2).1 0
      1).1.classes.map ChartClass.edges_list) = [[0], [0]] := by
  decide

/-- C10: a fresh chart starts with page list `[[2, 65535], [65535, 65535]]`
(`INFINITY = 65535`), one default circle node of idx 0 already in the
dedup cache, and empty classes, bidegree map, edges and dirty set; hence
the first class gets id 0, the first added node gets idx 1, and
`add_page_range([2, INFINITY])` is a no-op. -/
theorem claim_C10 (name : String) (x y : Int) (node : ChartNode) :
    (initialChartData name).page_list = [(2, 65535), (65535, 65535)] ∧
    INFINITY = 65535 ∧
    (initialChartData name).nodes = [defaultNode] ∧
    defaultNode.shape = "circle" ∧
    defaultNode.idx = 0 ∧
    (initialChartData name).nodes_dict = [defaultNode] ∧
    (initialChartData name).classes = [] ∧
    (initialChartData name).classes_by_bidegree = [] ∧
    (initialChartData name).edges = [] ∧
    (initialChartData name).updated_elements = [] ∧
    (add_class_a (initialChartData name) x y).2.1.id = 0 ∧
    (add_node_a (initialChartData name) node).1.nodes
      = [defaultNode, { node with idx := 1 }] ∧
    add_page_range_a (initialChartData name) (2, INFINITY) = (initialChartData name, []) := by
  refine ⟨rfl, rfl, rfl, rfl, rfl, rfl, rfl, rfl, rfl, rfl, rfl, rfl, ?_⟩
  exact add_page_range_of_mem (by simp [initialChartData])

theorem forall_mem_updAt {α : Type} {P : α → Prop} {l : List α} {i : Nat} {g : α → α}
    (h : ∀ a ∈ l, P a) (hg : ∀ a ∈ l, P (g a)) : ∀ a ∈ updAt l i g, P a := by
  intro a ha
  rcases mem_updAt ha with h1 | ⟨b, hb, hab⟩
  · exact h a h1
  · exact hab ▸ hg b hb

theorem chartInv_add_node (d : ChartData) (node : ChartNode) (h : chartInv d) :
    chartInv (add_node_a d node).1 := by
  refine ⟨?_, h.2.1, h.2.2.1, h.2.2.2⟩
  exact (idsFrom_append _ _ _ _).mpr ⟨h.1, by simp⟩

theorem chartInv_add_class (d : ChartData) (x y : Int) (h : chartInv d) :
    chartInv (add_class_a d x y).1 := by
  have hcl : (add_class_a d x y).1.classes = d.classes ++ [{ x := x, y := y, id := d.classes.length, node_list := [0], pages := [], edges_list := [] }] := rfl
  have hbd : (add_class_a d x y).1.classes_by_bidegree = bdInsert d.classes_by_bidegree (x, y) d.classes.length := rfl
  refine ⟨h.1, ?_, h.2.2.1, ?_⟩
  · rw [hcl]
    exact (idsFrom_append _ _ _ _).mpr ⟨h.2.1, by simp⟩
  · rw [hcl, hbd]
    intro c hc
    rcases List.mem_append.mp hc with h1 | h1
    · by_cases hk : ((c.x, c.y) : Int × Int) = (x, y)
      · rw [hk, bdLookup_bdInsert_self]
        exact List.mem_append_left _ (hk ▸ h.2.2.2 c h1)
      · rw [bdLookup_bdInsert_ne _ _ _ _ hk]
        exact h.2.2.2 c h1
    · have hc2 : c = { x := x, y := y, id := d.classes.length, node_list := [0], pages := [], edges_list := [] } := by
        simpa using h1
      subst hc2
      rw [bdLookup_bdInsert_self]
      simp

theorem chartInv_add_edge (d : ChartData) (ty : EdgeType) (pg : Option Int) (s t : Nat)
    (h : chartInv d) : chartInv (add_edge_a d ty pg s t).1 := by
  have hcl : (add_edge_a d ty pg s t).1.classes = updAt (updAt d.classes s (fun c => { c with edges_list := c.edges_list ++ [d.edges.length] })) t (fun c => { c with edges_list := c.edges_list ++ [d.edges.length] }) := rfl
  have hed : (add_edge_a d ty pg s t).1.edges = d.edges ++ [newEdge ty d.edges.length s t pg none] := rfl
  refine ⟨h.1, ?_, ?_, ?_⟩
  · rw [hcl]
    exact idsFrom_updAt ChartClass.id
      (fun c => { c with edges_list := c.edges_list ++ [d.edges.length] }) (fun b => rfl)
      (idsFrom_updAt ChartClass.id
        (fun c => { c with edges_list := c.edges_list ++ [d.edges.length] }) (fun b => rfl)
        h.2.1 s) t
  · rw [hed]
    exact (idsFrom_append _ _ _ _).mpr ⟨h.2.2.1, by simp [newEdge]⟩
  · show ∀ c ∈ (add_edge_a d ty pg s t).1.classes,
      c.id ∈ bdLookup d.classes_by_bidegree (c.x, c.y)
    rw [hcl]
    refine forall_mem_updAt (forall_mem_updAt h.2.2.2 ?_) ?_
    · intro a ha
      exact h.2.2.2 a ha
    · intro a ha
      rcases mem_updAt ha with h1 | ⟨b, hb, hab⟩
      · exact h.2.2.2 a h1
      · exact hab ▸ h.2.2.2 b hb

theorem chartInv_recordPages (d : ChartData) (p : Int) (s t : Nat) (h : chartInv d) :
    chartInv (recordPages d p s t) := by
  have hcl : (recordPages d p s t).classes = updAt (updAt d.classes s (fun c => class_add_page c p)) t (fun c => class_add_page c p) := rfl
  refine ⟨h.1, ?_, h.2.2.1, ?_⟩
  · rw [hcl]
    exact idsFrom_updAt ChartClass.id (fun c => class_add_page c p) (fun b => rfl)
      (idsFrom_updAt ChartClass.id (fun c => class_add_page c p) (fun b => rfl) h.2.1 s) t
  · show ∀ c ∈ (recordPages d p s t).classes,
      c.id ∈ bdLookup d.classes_by_bidegree (c.x, c.y)
    rw [hcl]
    refine forall_mem_updAt (forall_mem_updAt h.2.2.2 ?_) ?_
    · intro a ha
      exact h.2.2.2 a ha
    · intro a ha
      rcases mem_updAt ha with h1 | ⟨b, hb, hab⟩
      · exact h.2.2.2 a h1
      · exact hab ▸ h.2.2.2 b hb

theorem chartInv_add_page_range (d : ChartData) (r : Int × Int) (h : chartInv d) :
    chartInv (add_page_range_a d r).1 := by
  unfold chartInv
  rw [add_page_range_nodes, add_page_range_classes, add_page_range_edges, add_page_range_bd]
  exact h

theorem chartInv_update (d : ChartData) (h : chartInv d) : chartInv (update_a d).1 := h

theorem chartInv_applyOp (d : ChartData) (op : ChartOp) (h : chartInv d) :
    chartInv (applyOp d op) := by
  cases op with
  | addNode node => exact chartInv_add_node d node h
  | addClass x y => exact chartInv_add_class d x y h
  | addStructline s t => exact chartInv_add_edge d .structline none s t h
  | addExtension s t => exact chartInv_add_edge d .extension none s t h
  | addDifferential p s t auto =>
    cases auto with
    | false => exact chartInv_add_edge d .differential (some p) s t h
    | true =>
      show chartInv (add_edge_a (update_a (add_page_range_a
        (recordPages d p s t) (p, p)).1).1 .differential (some p) s t).1
      exact chartInv_add_edge _ _ _ _ _ (chartInv_update _ (chartInv_add_page_range _ _
        (chartInv_recordPages d p s t h)))

theorem chartInv_applyOps (d : ChartData) (h : chartInv d) (ops : List ChartOp) :
    chartInv (applyOps d ops) := by
  induction ops generalizing d with
  | nil => exact h
  | cons op rest ih =>
    have hstep : applyOps d (op :: rest) = applyOps (applyOp d op) rest := rfl
    rw [hstep]
    exact ih _ (chartInv_applyOp d op h)

theorem chartInv_initial (name : String) : chartInv (initialChartData name) := by
  refine ⟨⟨rfl, trivial⟩, trivial, trivial, ?_⟩
  intro c hc
  simp [initialChartData] at hc

/-- C9: after any sequence of `add_node`, `add_class`, `add_structline`,
`add_extension` and `add_differential` calls on a fresh chart, the node
at position `i` has `idx = i`, the class at position `i` has `id = i`,
the edge at position `i` has `id = i` (ids are assigned as the list
length at append time and never change), and every class appears in the
bidegree map under its own `(x, y)` key. -/
theorem claim_C9 (name : String) (ops : List ChartOp) :
    (∀ i (h : i < (applyOps (initialChartData name) ops).nodes.length),
      ((applyOps (initialChartData name) ops).nodes.get ⟨i, h⟩).idx = i) ∧
    (∀ i (h : i < (applyOps (initialChartData name) ops).classes.length),
      ((applyOps (initialChartData name) ops).classes.get ⟨i, h⟩).id = i) ∧
    (∀ i (h : i < (applyOps (initialChartData name) ops).edges.length),
      ((applyOps (initialChartData name) ops).edges.get ⟨i, h⟩).id = i) ∧
    (∀ c ∈ (applyOps (initialChartData name) ops).classes,
      c.id ∈ bdLookup (applyOps (initialChartData name) ops).classes_by_bidegree
        (c.x, c.y)) := by
  have hinv := chartInv_applyOps (initialChartData name) (chartInv_initial name) ops
  refine ⟨fun i h => ?_, fun i h => ?_, fun i h => ?_, hinv.2.2.2⟩
  · have := idsFrom_getElem hinv.1 i h
    omega
  · have := idsFrom_getElem hinv.2.1 i h
    omega
  · have := idsFrom_getElem hinv.2.2.1 i h
    omega

/-- Witness for C9 on a concrete run: after `add_class(0,0)`,
`add_class(1,2)`, `add_structline(0,1)`, `add_differential(2,1,0)` and
`add_node`, position 1 of the class, edge and node lists carries id
(resp. idx) 1, and the single class of a one-class run is registered in
the bidegree map under `(0, 0)`. -/
theorem claim_C9_witness :
    ((applyOps (initialChartData "w") [ChartOp.addClass 0 0, ChartOp.addClass 1 2,
      ChartOp.addStructline 0 1, ChartOp.addDifferential 2 1 0 true,
      ChartOp.addNode ⟨"square", 7⟩]).classes.get ⟨1, by decide⟩).id = 1 ∧
    ((applyOps (initialChartData "w") [ChartOp.addClass 0 0, ChartOp.addClass 1 2,
      ChartOp.addStructline 0 1, ChartOp.addDifferential 2 1 0 true,
      ChartOp.addNode ⟨"square", 7⟩]).edges.get ⟨1, by decide⟩).id = 1 ∧
    ((applyOps (initialChartData "w") [ChartOp.addClass 0 0, ChartOp.addClass 1 2,
      ChartOp.addStructline 0 1, ChartOp.addDifferential 2 1 0 true,
      ChartOp.addNode ⟨"square", 7⟩]).nodes.get ⟨1, by decide⟩).idx = 1 ∧
    (⟨0, 0, 0, [0], [], []⟩ : ChartClass).id ∈
      bdLookup (applyOps (initialChartData "w")
        [ChartOp.addClass 0 0]).classes_by_bidegree
        ((⟨0, 0, 0, [0], [], []⟩ : ChartClass).x, (⟨0, 0, 0, [0], [], []⟩ : ChartClass).y) :=
  ⟨(claim_C9 "w" [ChartOp.addClass 0 0, ChartOp.addClass 1 2, ChartOp.addStructline 0 1,
      ChartOp.addDifferential 2 1 0 true, ChartOp.addNode ⟨"square", 7⟩]).2.1 1 (by decide),
   (claim_C9 "w" [ChartOp.addClass 0 0, ChartOp.addClass 1 2, ChartOp.addStructline 0 1,
      ChartOp.addDifferential 2 1 0 true, ChartOp.addNode ⟨"square", 7⟩]).2.2.1 1 (by decide),
   (claim_C9 "w" [ChartOp.addClass 0 0, ChartOp.addClass 1 2, ChartOp.addStructline 0 1,
      ChartOp.addDifferential 2 1 0 true, ChartOp.addNode ⟨"square", 7⟩]).1 1 (by decide),
   (claim_C9 "w" [ChartOp.addClass 0 0]).2.2.2 ⟨0, 0, 0, [0], [], []⟩ (by decide)⟩

end Sseq
